import Mathlib

/-!
# Verification of the ChengyuBERT affection data pipeline

Shallow embedding of the example-construction / batch-assembly pipeline and the
span-composition / latent-vocabulary scoring scheme of the repository
(`chengyubert/data/dataset/affection.py`, `chengyubert/models/modeling_affection.py`),
together with proofs of the specified properties.

Integers follow Python semantics: unbounded `Int`/`Nat`, with `Int` wherever a
Python expression can go negative (e.g. `max_txt_len - 2`).
-/

namespace Affection

/-! ## Span windowing (`ChengyuCALODataset.get_ids_and_lens`)

Python source:
```
half_length = self.max_txt_len // 2
if position < half_length:  # cut at tail
    st = 0
    ed = min(len(input_ids) + 1, self.max_txt_len - 2)
elif len(input_ids) - position < half_length:  # cut at head
    ed = len(input_ids)
    st = max(0, ed - (self.max_txt_len - 2))
else:  # cut at both sides
    st = position - (half_length - 2)
    ed = position + half_length
```
`L`, `position`, `max_txt_len` are Python ints (here naturals, since they are a
sequence length, an index into it, and a config length); `st`, `ed` are computed
in `Int` because `max_txt_len - 2` and `position - (half_length - 2)` can go
negative in Python. -/

def spanWindow (L position max_txt_len : ℕ) : ℤ × ℤ :=
  let half : ℕ := max_txt_len / 2
  if position < half then
    (0, min ((L : ℤ) + 1) ((max_txt_len : ℤ) - 2))
  else if (L : ℤ) - (position : ℤ) < (half : ℤ) then
    (max 0 ((L : ℤ) - ((max_txt_len : ℤ) - 2)), (L : ℤ))
  else
    ((position : ℤ) - ((half : ℤ) - 2), (position : ℤ) + (half : ℤ))

/-! ## Batch collator gather index (`collate_fn`)

Python source (`ChengyuCALOComposeOnlyDataset.collate_fn`; the masked variant at
lines 343–350 builds two tensors by the same recipe, one per channel position):
```
width_max = max(widths)
gather_index = torch.arange(0, width_max, dtype=torch.long).unsqueeze(0).repeat(len(inputs), 1).clone()
for i, (p, w) in enumerate(zip(positions, widths)):
    gather_index.data[i, :w] = torch.arange(p, p + w, dtype=torch.long).data
```
-/

/-- `max(widths)` for a batch; Python's `max` on a non-empty list. -/
def widthMax (widths : List ℕ) : ℕ := widths.foldl max 0

/-- One row of the gather-index tensor: the default fill `arange(0, W)` with its
first `w` entries overwritten by `arange(p, p + w)`. -/
def gatherRow (p w W : ℕ) : List ℕ :=
  ((List.range w).map (fun j => p + j)) ++ (List.range W).drop w

/-- The full gather-index tensor, one row per `(position, width)` pair of the
batch. -/
def gatherIndex (pw : List (ℕ × ℕ)) : List (List ℕ) :=
  pw.map (fun x => gatherRow x.1 x.2 (widthMax (pw.map Prod.snd)))

/-! ## Example assembly (`__getitem__`)

Python source (`ChengyuCALOComposeOnlyDataset.__getitem__`, lines 150–176, and
`ChengyuCALOComposeOnlyMaskedDataset.__getitem__`, lines 282–319):
```
context_ids = example['input_ids'][st: ed]
idiom_start = context_ids.index(self.tokenizer.mask_token_id)
...
input_ids = reduce(operator.add, [[cls], context_ids[:idiom_start], idiom_input_ids,
                                  context_ids[idiom_start + 1:], [sep]])
```
and, in the masked variant without context,
```
input_ids = input_ids + [pad] * (len(input_masked_ids) - input_ids_len)
```
(`[x] * n` is empty for `n ≤ 0`, which is exactly `List.replicate` on a
truncated natural subtraction). -/

/-- Python slice `input_ids[st:ed]` for `0 ≤ st ≤ ed`. -/
def contextSlice (inputIds : List ℕ) (st ed : ℕ) : List ℕ :=
  (inputIds.drop st).take (ed - st)

/-- `idiom_start = context_ids.index(self.tokenizer.mask_token_id)`. -/
def idiomStartOf (ctx : List ℕ) (maskTok : ℕ) : ℕ := ctx.indexOf maskTok

/-- `[cls] + context_ids[:idiom_start] + idiom_input_ids + context_ids[idiom_start+1:] + [sep]`. -/
def assembleVisible (clsTok sepTok : ℕ) (ctx : List ℕ) (idiomStart : ℕ)
    (idiomIds : List ℕ) : List ℕ :=
  [clsTok] ++ ctx.take idiomStart ++ idiomIds ++ ctx.drop (idiomStart + 1) ++ [sepTok]

/-- `[cls] + idiom_input_ids + [sep]` (the `use_context=False` assembly). -/
def assembleNoContext (clsTok sepTok : ℕ) (idiomIds : List ℕ) : List ℕ :=
  [clsTok] ++ idiomIds ++ [sepTok]

/-- The masked channel: the idiom replaced by `idiom_len` copies of the mask id. -/
def assembleMaskedChannel (clsTok sepTok maskTok : ℕ) (ctx : List ℕ)
    (idiomStart idiomLen : ℕ) : List ℕ :=
  [clsTok] ++ ctx.take idiomStart ++ List.replicate idiomLen maskTok ++
    ctx.drop (idiomStart + 1) ++ [sepTok]

/-- The `use_context=False` visible channel of the masked dataset, padded with
the pad id up to the masked channel's length. -/
def assembleNoContextPadded (clsTok sepTok padTok : ℕ) (idiomIds : List ℕ)
    (maskedLen : ℕ) : List ℕ :=
  assembleNoContext clsTok sepTok idiomIds ++
    List.replicate (maskedLen - (assembleNoContext clsTok sepTok idiomIds).length) padTok

/-! ## Candidate target resolver (`_decide_target`, candidate index, options) -/

/-- One record of the affective lexicon (a `calo_vocab` entry). -/
structure Affections where
  coarse_emotion : ℤ
  fine_emotion : ℤ
  sentiment : ℤ
  strength : ℤ
deriving DecidableEq

/-- `ChengyuCALODataset._decide_target`: the default target
`[idx, -100, -100, -100, 0]` is overwritten from the idiom's first lexicon
record when the idiom is in both `calo_vocab` and the split's `filtered` set.
Looking up record `[0]` of an empty record list raises in Python, hence the
`Option` result (`none` = crash). -/
def decideTarget (caloVocab : String → Option (List Affections))
    (filtered : String → Bool) (idiom : String) (idx : ℤ) : Option (List ℤ) :=
  match caloVocab idiom, filtered idiom with
  | some affs, true =>
      affs.head?.map
        (fun a => [idx, a.coarse_emotion, a.fine_emotion, a.sentiment, a.strength])
  | _, _ => some [idx, -100, -100, -100, 0]

/-- `idx = enlarged_candidates.index(idiom) if idiom in enlarged_candidates
else -100` (`ChengyuCALOComposeOnlyDataset.__getitem__`, lines 156–159). -/
def resolveCandidateIdx (enlargedCandidates : List ℕ) (idiom : ℕ) : ℤ :=
  if idiom ∈ enlargedCandidates then (enlargedCandidates.indexOf idiom : ℤ) else -100

/-- The option-filling step of `__getitem__` (lines 143–147) on an empty options
list, given the 7 ids returned by `random.sample(self.idiom_ids, k=7)`: if the
true idiom is absent, `options[-1] = idiom` overwrites the last draw. The
subsequent `random.shuffle` is modelled as an arbitrary permutation in the
theorems. -/
def fillOptions (draw : List ℕ) (idiom : ℕ) : List ℕ :=
  if idiom ∈ draw then draw else draw.dropLast ++ [idiom]

/-- Modelled from the spec: the mechanism as Scenario E words it — "samples 6
random ids, force-inserts the true idiom if absent" — i.e. a 6-element draw to
which the true idiom is appended only when it is missing. Used to compare the
spec's wording with `fillOptions` above. -/
def fillOptionsSpecMechanism (draw6 : List ℕ) (idiom : ℕ) : List ℕ :=
  if idiom ∈ draw6 then draw6 else draw6 ++ [idiom]

/-! ## Label weights (`get_label_weights`)

```
_, max_num = counter.most_common(1)[0]
return torch.tensor([counter[i] / max_num for i in range(num_classes)])
```
The counter is modelled by the list of observed labels (`counter[i]` =
`labels.count i`); `most_common(1)[0][1]` is the count of the most frequent
key, i.e. the maximum of `labels.count l` over the occurring labels `l`. -/

def maxCount (labels : List ℕ) : ℕ :=
  (labels.map (fun l => labels.count l)).foldl max 0

def getLabelWeights (labels : List ℕ) (numClasses : ℕ) : List ℚ :=
  (List.range numClasses).map (fun i => (labels.count i : ℚ) / (maxCount labels : ℚ))

/-! ## Span pooling (`AffectionMaxPooling.forward` and the masked variants)

```
gather_index = gather_index.unsqueeze(-1).expand(-1, -1, self.config.hidden_size).type_as(input_ids)
idiom_states = torch.gather(encoded_context, dim=1, index=gather_index)
composed_states, _ = idiom_states.max(dim=1)
```
Tensors are total functions on `Fin`-indexed shapes; the gather-index entries
are sequence offsets (`Fin S`), and the reduced dimension is non-empty
(`W + 1`), as `torch.max(dim=1)` requires. -/

/-- `torch.gather(encoded_context, dim=1, index=gather_index.unsqueeze(-1).expand(..))`:
`idiom_states[b][j][d] = encoded_context[b][gather_index[b][j]][d]`. -/
def idiomStatesOf {N S H W : ℕ} (encodedContext : Fin N → Fin S → Fin H → ℚ)
    (gatherIdx : Fin N → Fin W → Fin S) : Fin N → Fin W → Fin H → ℚ :=
  fun b j d => encodedContext b (gatherIdx b j) d

/-- `idiom_states.max(dim=1)` (values only): elementwise maximum over the
gathered span positions. -/
def maxDim1 {N H W : ℕ} (states : Fin N → Fin (W + 1) → Fin H → ℚ) :
    Fin N → Fin H → ℚ :=
  fun b d => Finset.univ.sup' ⟨0, Finset.mem_univ 0⟩ (fun j => states b j d)

/-! ## Latent-vocabulary scorer (`vocab` of the latent-idiom models)

```
idiom_embeddings = self.idiom_embedding(self.enlarged_candidates)
logits = torch.einsum('bd,nd->bn', [blank_states, idiom_embeddings])
state = torch.einsum('bn,nd->bd', [logits.softmax(dim=-1), idiom_embeddings])
return logits, state
```
Numeric tensors are modelled over `ℚ`; the exponential of the softmax is an
explicit function parameter `expF` (the claims concern the algebraic structure,
not the value of `exp`). -/

/-- `torch.einsum('bd,nd->bn', [A, M])`, i.e. `A ⬝ Mᵀ`. -/
def einsum_bd_nd_bn {B N D : ℕ} (A : Matrix (Fin B) (Fin D) ℚ)
    (M : Matrix (Fin N) (Fin D) ℚ) : Matrix (Fin B) (Fin N) ℚ :=
  A * M.transpose

/-- `torch.einsum('bn,nd->bd', [S, M])`, i.e. `S ⬝ M`. -/
def einsum_bn_nd_bd {B N D : ℕ} (S : Matrix (Fin B) (Fin N) ℚ)
    (M : Matrix (Fin N) (Fin D) ℚ) : Matrix (Fin B) (Fin D) ℚ :=
  S * M

/-- Row softmax with exponential function `expF`. -/
def softmaxRow {n : ℕ} (expF : ℚ → ℚ) (v : Fin n → ℚ) : Fin n → ℚ :=
  fun k => expF (v k) / ∑ j, expF (v j)

/-- `logits.softmax(dim=-1)`: softmax applied to each row. -/
def softmaxRows {B n : ℕ} (expF : ℚ → ℚ) (S : Matrix (Fin B) (Fin n) ℚ) :
    Matrix (Fin B) (Fin n) ℚ :=
  fun i => softmaxRow expF (S i)

/-- `AffectionMaxPoolingMaskedLatentIdiom.vocab` (identical in the `WithGate`
variant): bilinear logits against the idiom-embedding rows and the
softmax-weighted reconstructed state. -/
def vocab {B K H : ℕ} (expF : ℚ → ℚ) (idiomEmbeddings : Matrix (Fin K) (Fin H) ℚ)
    (blankStates : Matrix (Fin B) (Fin H) ℚ) :
    Matrix (Fin B) (Fin K) ℚ × Matrix (Fin B) (Fin H) ℚ :=
  (einsum_bd_nd_bn blankStates idiomEmbeddings,
   einsum_bn_nd_bd (softmaxRows expF (einsum_bd_nd_bn blankStates idiomEmbeddings))
     idiomEmbeddings)

/-- The padded batch length produced by `pad_sequence(..., batch_first=True)`:
the maximum of the per-instance sequence lengths. -/
def paddedLen (lens : List ℕ) : ℕ := lens.foldl max 0

end Affection

namespace Affection

theorem le_widthMax {w : ℕ} {ws : List ℕ} (h : w ∈ ws) : w ≤ widthMax ws := by
  have aux : ∀ (ws : List ℕ) (a : ℕ), a ≤ ws.foldl max a ∧ ∀ w ∈ ws, w ≤ ws.foldl max a := by
    intro ws
    induction ws with
    | nil => intro a; exact ⟨le_refl a, by simp⟩
    | cons x xs ih =>
      intro a
      refine ⟨le_trans (le_max_left a x) (ih (max a x)).1, ?_⟩
      intro w hw
      rcases List.mem_cons.mp hw with rfl | hw
      · exact le_trans (le_max_right a w) (ih (max a w)).1
      · exact (ih (max a x)).2 w hw
  exact (aux ws 0).2 w h

theorem gatherRow_length {p w W : ℕ} (hw : w ≤ W) : (gatherRow p w W).length = W := by
  simp [gatherRow]
  omega

theorem gatherRow_getElem_lt {p w W j : ℕ} (hj : j < w)
    (hjlen : j < (gatherRow p w W).length) :
    (gatherRow p w W)[j] = p + j := by
  unfold gatherRow at hjlen ⊢
  rw [List.getElem_append_left (by simpa using hj)]
  simp

theorem gatherRow_getElem_ge {p w W j : ℕ} (hj₁ : w ≤ j)
    (hjlen : j < (gatherRow p w W).length) :
    (gatherRow p w W)[j] = j := by
  unfold gatherRow at hjlen ⊢
  rw [List.getElem_append_right (by simpa using hj₁)]
  simp only [List.length_map, List.length_range, List.getElem_drop, List.getElem_range]
  omega

end Affection

/-- C2: for a non-empty batch, the gather-index tensor has one row per instance
and width `W = max` of the widths; the row of an instance with span start `p`
and width `w` has its first `w` entries equal to `p, p+1, …, p+w-1`, and every
entry in a column `j ≥ w` equals `j` (the unmodified default fill
`range(0, W)`). -/
theorem gatherIndex_c2 (pw : List (ℕ × ℕ)) (i p w : ℕ)
    (hi : pw.get? i = some (p, w)) :
    (Affection.gatherIndex pw).length = pw.length ∧
    (Affection.gatherIndex pw).get? i =
      some (Affection.gatherRow p w (Affection.widthMax (pw.map Prod.snd))) ∧
    (Affection.gatherRow p w (Affection.widthMax (pw.map Prod.snd))).length =
      Affection.widthMax (pw.map Prod.snd) ∧
    (∀ j : ℕ, j < w →
      (Affection.gatherRow p w (Affection.widthMax (pw.map Prod.snd))).get? j = some (p + j)) ∧
    (∀ j : ℕ, w ≤ j → j < Affection.widthMax (pw.map Prod.snd) →
      (Affection.gatherRow p w (Affection.widthMax (pw.map Prod.snd))).get? j = some j) := by
  have hmem : (p, w) ∈ pw := List.get?_mem hi
  have hwW : w ≤ Affection.widthMax (pw.map Prod.snd) :=
    Affection.le_widthMax (by exact List.mem_map.mpr ⟨(p, w), hmem, rfl⟩)
  have hlen := Affection.gatherRow_length (p := p) hwW
  refine ⟨by simp [Affection.gatherIndex], ?_, hlen, ?_, ?_⟩
  · have : i < pw.length := (List.get?_eq_some.mp hi).1
    simp only [Affection.gatherIndex, List.get?_map, hi, Option.map_some']
  · intro j hj
    have hjlen : j < (Affection.gatherRow p w (Affection.widthMax (pw.map Prod.snd))).length := by
      omega
    rw [List.get?_eq_get hjlen]
    simp only [List.get_eq_getElem]
    rw [Affection.gatherRow_getElem_lt hj hjlen]
  · intro j hj₁ hj₂
    have hjlen : j < (Affection.gatherRow p w (Affection.widthMax (pw.map Prod.snd))).length := by
      omega
    rw [List.get?_eq_get hjlen]
    simp only [List.get_eq_getElem]
    rw [Affection.gatherRow_getElem_ge hj₁ hjlen]

/-- C2 witness: Scenario D of the spec — two instances with widths `[2, 3]`
(span starts 4 and 7), so `width_max = 3`; row 0 is `[4, 5, 2]`. -/
theorem gatherIndex_c2_witness :
    (Affection.gatherIndex [(4, 2), (7, 3)]).length = 2 ∧
    (Affection.gatherIndex [(4, 2), (7, 3)]).get? 0 =
      some (Affection.gatherRow 4 2
        (Affection.widthMax ([(4, 2), (7, 3)].map Prod.snd))) ∧
    (Affection.gatherRow 4 2 (Affection.widthMax ([(4, 2), (7, 3)].map Prod.snd))).length =
      Affection.widthMax ([(4, 2), (7, 3)].map Prod.snd) ∧
    (∀ j : ℕ, j < 2 →
      (Affection.gatherRow 4 2
        (Affection.widthMax ([(4, 2), (7, 3)].map Prod.snd))).get? j = some (4 + j)) ∧
    (∀ j : ℕ, 2 ≤ j → j < Affection.widthMax ([(4, 2), (7, 3)].map Prod.snd) →
      (Affection.gatherRow 4 2
        (Affection.widthMax ([(4, 2), (7, 3)].map Prod.snd))).get? j = some j) :=
  gatherIndex_c2 [(4, 2), (7, 3)] 0 4 2 rfl

/-- C10: for a batch of instances `(position, width, seqLen)` whose span lies
inside their own sequence (`position + width ≤ seqLen`) and in which some
widest-span instance has room for at least the start marker, the span and the
end marker (`width + 2 ≤ seqLen`), every entry of the collator's gather-index
tensor — including the default-fill entries of short-span rows — is strictly
less than the padded batch length, so the model's indexed gather along the
sequence axis never reads out of range. -/
theorem gatherIndex_c10 (insts : List (ℕ × ℕ × ℕ))
    (hspan : ∀ x ∈ insts, x.1 + x.2.1 ≤ x.2.2)
    (hwidest : ∃ x ∈ insts,
      x.2.1 = Affection.widthMax ((insts.map (fun x => (x.1, x.2.1))).map Prod.snd) ∧
      x.2.1 + 2 ≤ x.2.2) :
    ∀ row ∈ Affection.gatherIndex (insts.map (fun x => (x.1, x.2.1))),
      ∀ e ∈ row, e < Affection.paddedLen (insts.map (fun x => x.2.2)) := by
  intro row hrow e he
  obtain ⟨pw, hpwmem, hrweq⟩ := List.mem_map.mp hrow
  obtain ⟨x, hx, hpx⟩ := List.mem_map.mp hpwmem
  obtain ⟨x', hx', hW, hroom⟩ := hwidest
  have hlenx : x.2.2 ≤ Affection.paddedLen (insts.map (fun x => x.2.2)) :=
    Affection.le_widthMax (List.mem_map.mpr ⟨x, hx, rfl⟩)
  have hlenx' : x'.2.2 ≤ Affection.paddedLen (insts.map (fun x => x.2.2)) :=
    Affection.le_widthMax (List.mem_map.mpr ⟨x', hx', rfl⟩)
  subst hrweq
  unfold Affection.gatherRow at he
  rcases List.mem_append.mp he with hcase | hcase
  · obtain ⟨j, hj, hej⟩ := List.mem_map.mp hcase
    have hjlt : j < pw.2 := List.mem_range.mp hj
    have := hspan x hx
    subst hej
    have : pw.1 = x.1 ∧ pw.2 = x.2.1 := by
      constructor <;> simp [← hpx]
    omega
  · have hcase' := List.mem_of_mem_drop hcase
    have heW : e < Affection.widthMax ((insts.map (fun x => (x.1, x.2.1))).map Prod.snd) :=
      List.mem_range.mp hcase'
    omega

/-- C10 witness: in the concrete two-instance batch (positions 1 and 1, widths
2 and 3, sequence lengths 5 and 6), the default-fill entry `2` of the
short-span row is a valid index into the padded sequences. -/
theorem gatherIndex_c10_witness :
    2 < Affection.paddedLen ([(1, 2, 5), (1, 3, 6)].map (fun x => x.2.2)) :=
  gatherIndex_c10 [(1, 2, 5), (1, 3, 6)] (by decide)
    ⟨(1, 3, 6), by decide, by decide, by decide⟩
    (Affection.gatherRow 1 2 (Affection.widthMax
      (([(1, 2, 5), (1, 3, 6)].map (fun x => (x.1, x.2.1))).map Prod.snd)))
    (by decide) 2 (by decide)

/-- C5: for every windowed instance whose window satisfies
`ed - st ≤ max_txt_len - 2` (Python integer arithmetic, hence the `ℤ` cast) and
whose window slice contains the mask marker, each of the four assembled
input-id sequences of `__getitem__` — visible with context, visible without
context, masked channel, and the pad-aligned no-context visible channel of the
masked dataset — has length at most `max_txt_len + idiom_token_length`; the
length assertion in `__getitem__` never fails under that precondition. -/
theorem assembled_length_c5 (inputIds : List ℕ) (st ed max_txt_len : ℕ)
    (clsTok sepTok maskTok padTok : ℕ) (idiomIds : List ℕ)
    (hwin : (ed : ℤ) - (st : ℤ) ≤ (max_txt_len : ℤ) - 2)
    (hmask : maskTok ∈ Affection.contextSlice inputIds st ed) :
    (Affection.assembleVisible clsTok sepTok (Affection.contextSlice inputIds st ed)
        (Affection.idiomStartOf (Affection.contextSlice inputIds st ed) maskTok)
        idiomIds).length ≤ max_txt_len + idiomIds.length ∧
    (Affection.assembleNoContext clsTok sepTok idiomIds).length ≤
      max_txt_len + idiomIds.length ∧
    (Affection.assembleMaskedChannel clsTok sepTok maskTok
        (Affection.contextSlice inputIds st ed)
        (Affection.idiomStartOf (Affection.contextSlice inputIds st ed) maskTok)
        idiomIds.length).length ≤ max_txt_len + idiomIds.length ∧
    (Affection.assembleNoContextPadded clsTok sepTok padTok idiomIds
        (Affection.assembleMaskedChannel clsTok sepTok maskTok
          (Affection.contextSlice inputIds st ed)
          (Affection.idiomStartOf (Affection.contextSlice inputIds st ed) maskTok)
          idiomIds.length).length).length ≤ max_txt_len + idiomIds.length := by
  set ctx := Affection.contextSlice inputIds st ed with hctx
  set s := Affection.idiomStartOf ctx maskTok with hsdef
  have hslt : s < ctx.length := by
    rw [hsdef]
    exact List.indexOf_lt_length.mpr hmask
  have hClen : ctx.length = min (ed - st) (inputIds.length - st) := by
    simp [hctx, Affection.contextSlice]
  have hCpos : 0 < ctx.length := List.length_pos.mpr (List.ne_nil_of_mem hmask)
  have hC2M : ctx.length + 2 ≤ max_txt_len := by omega
  refine ⟨?_, ?_, ?_, ?_⟩
  · simp only [Affection.assembleVisible, List.length_append, List.length_take,
      List.length_drop, List.length_cons, List.length_nil]
    omega
  · simp only [Affection.assembleNoContext, List.length_append, List.length_cons,
      List.length_nil]
    omega
  · simp only [Affection.assembleMaskedChannel, List.length_append, List.length_take,
      List.length_drop, List.length_replicate, List.length_cons, List.length_nil]
    omega
  · simp only [Affection.assembleNoContextPadded, Affection.assembleNoContext,
      Affection.assembleMaskedChannel, List.length_append, List.length_take,
      List.length_drop, List.length_replicate, List.length_cons, List.length_nil]
    omega

/-- C5 witness: a concrete windowed instance (`input_ids = [5, 103, 6]`, window
`[0, 3)`, `max_txt_len = 8`, mask id 103, a 4-token idiom). -/
theorem assembled_length_c5_witness :
    (Affection.assembleVisible 101 102 (Affection.contextSlice [5, 103, 6] 0 3)
        (Affection.idiomStartOf (Affection.contextSlice [5, 103, 6] 0 3) 103)
        [9, 9, 9, 9]).length ≤ 8 + ([9, 9, 9, 9] : List ℕ).length ∧
    (Affection.assembleNoContext 101 102 [9, 9, 9, 9]).length ≤
      8 + ([9, 9, 9, 9] : List ℕ).length ∧
    (Affection.assembleMaskedChannel 101 102 103
        (Affection.contextSlice [5, 103, 6] 0 3)
        (Affection.idiomStartOf (Affection.contextSlice [5, 103, 6] 0 3) 103)
        ([9, 9, 9, 9] : List ℕ).length).length ≤ 8 + ([9, 9, 9, 9] : List ℕ).length ∧
    (Affection.assembleNoContextPadded 101 102 0 [9, 9, 9, 9]
        (Affection.assembleMaskedChannel 101 102 103
          (Affection.contextSlice [5, 103, 6] 0 3)
          (Affection.idiomStartOf (Affection.contextSlice [5, 103, 6] 0 3) 103)
          ([9, 9, 9, 9] : List ℕ).length).length).length ≤
      8 + ([9, 9, 9, 9] : List ℕ).length :=
  assembled_length_c5 [5, 103, 6] 0 3 8 101 102 103 0 [9, 9, 9, 9]
    (by norm_num) (by decide)

/-- C6: provided the affective lexicon is well-formed (fine-emotion labels are
valid class indices, i.e. non-negative), `_decide_target` returns the sentinel
tuple `(idx, -100, -100, -100, 0)` exactly when the idiom has no affective
annotation (absent from the lexicon or from the split's labelled set), and
otherwise fills the four semantic fields from the idiom's first lexicon
record. -/
theorem decideTarget_c6 (caloVocab : String → Option (List Affection.Affections))
    (filtered : String → Bool) (idiom : String) (idx : ℤ)
    (hvalid : ∀ affs, caloVocab idiom = some affs → ∀ a ∈ affs, 0 ≤ a.fine_emotion) :
    (Affection.decideTarget caloVocab filtered idiom idx =
        some [idx, -100, -100, -100, 0] ↔
      caloVocab idiom = none ∨ filtered idiom = false) ∧
    (∀ (a : Affection.Affections) (rest : List Affection.Affections),
      caloVocab idiom = some (a :: rest) → filtered idiom = true →
      Affection.decideTarget caloVocab filtered idiom idx =
        some [idx, a.coarse_emotion, a.fine_emotion, a.sentiment, a.strength]) := by
  constructor
  · constructor
    · intro hres
      rcases hcal : caloVocab idiom with _ | affs
      · exact Or.inl rfl
      · rcases hf : filtered idiom
        · exact Or.inr rfl
        · exfalso
          rcases affs with _ | ⟨a, rest⟩
          · simp [Affection.decideTarget, hcal, hf] at hres
          · have hfine : 0 ≤ a.fine_emotion := hvalid _ hcal a (List.mem_cons_self a rest)
            simp [Affection.decideTarget, hcal, hf] at hres
            omega
    · intro h
      rcases h with h | h <;> simp [Affection.decideTarget, h]
  · intro a rest hcal hf
    simp [Affection.decideTarget, hcal, hf]

/-- C6 witness: an idiom absent from the lexicon resolves to the sentinel
target. -/
theorem decideTarget_c6_witness :
    Affection.decideTarget (fun _ => none) (fun _ => true) "a" 3 =
      some [3, -100, -100, -100, 0] :=
  (decideTarget_c6 (fun _ => none) (fun _ => true) "a" 3
    (fun _ h => nomatch h)).1.mpr (Or.inl rfl)

/-- C7 (counterexample): under the mechanism exactly as the claim words it —
sample **6** random ids and force-insert the true idiom only if absent — a draw
that already contains the true idiom yields a list of length 6, not 7. The code
actually samples 7 ids (`random.sample(self.idiom_ids, k=7)`) and overwrites
the last one when the true idiom is absent. -/
theorem fillOptions_c7_counterexample :
    Affection.fillOptionsSpecMechanism [1, 2, 3, 4, 5, 6] 3 = [1, 2, 3, 4, 5, 6] ∧
    (Affection.fillOptionsSpecMechanism [1, 2, 3, 4, 5, 6] 3).length ≠ 7 := by
  decide

/-- C7 (amended): when the options list is empty, the pipeline samples **7**
distinct idiom ids, overwrites the last draw with the true idiom if it was
absent, and shuffles; the resulting list always has length exactly 7 and
contains the true idiom exactly once. -/
theorem fillOptions_c7 (draw : List ℕ) (idiom : ℕ) (shuffled : List ℕ)
    (h7 : draw.length = 7) (hnd : draw.Nodup)
    (hperm : List.Perm shuffled (Affection.fillOptions draw idiom)) :
    shuffled.length = 7 ∧ shuffled.count idiom = 1 := by
  have hlen := hperm.length_eq
  have hcnt := hperm.count_eq idiom
  by_cases hmem : idiom ∈ draw
  · rw [Affection.fillOptions, if_pos hmem] at hlen hcnt
    exact ⟨by omega, by rw [hcnt]; exact List.count_eq_one_of_mem hnd hmem⟩
  · rw [Affection.fillOptions, if_neg hmem] at hlen hcnt
    have hnotdl : idiom ∉ draw.dropLast := fun h => hmem (List.dropLast_subset _ h)
    constructor
    · rw [hlen]
      simp only [List.length_append, List.length_dropLast, h7, List.length_cons,
        List.length_nil]
    · rw [hcnt, List.count_append]
      simp [List.count_eq_zero_of_not_mem hnotdl]

/-- C7 witness: a fresh 7-id draw without the true idiom (id 9), left
unshuffled. -/
theorem fillOptions_c7_witness :
    (Affection.fillOptions [0, 1, 2, 3, 4, 5, 6] 9).length = 7 ∧
    (Affection.fillOptions [0, 1, 2, 3, 4, 5, 6] 9).count 9 = 1 :=
  fillOptions_c7 [0, 1, 2, 3, 4, 5, 6] 9 _ (by decide) (by decide) (List.Perm.refl _)

/-- C8 (counterexample): the weights `count[c] / max_count` are **direct**
frequency weights: with observed labels `[0, 1, 1]` over 2 classes, the more
common class 1 gets weight 1 while the rarer class 0 gets 1/2, so a more common
category **does** receive a larger weight, contradicting the claim's
"inverse-frequency" characterization. -/
theorem getLabelWeights_c8_counterexample :
    Affection.getLabelWeights [0, 1, 1] 2 = [1/2, 1] ∧
    ([0, 1, 1] : List ℕ).count 0 ≤ ([0, 1, 1] : List ℕ).count 1 ∧
    ¬ ((1 : ℚ) ≤ 1/2) := by
  refine ⟨by norm_num [Affection.getLabelWeights, Affection.maxCount, List.range_succ],
    by decide, by norm_num⟩

/-- C8 (amended): `get_label_weights` returns `weight[c] = count[c] / max_count`
with `max_count` the count of the most frequent class; these weights are
monotone **non-decreasing** in frequency, so a more common category never
receives a *smaller* weight than a rarer one. -/
theorem getLabelWeights_c8 (labels : List ℕ) (numClasses c d : ℕ)
    (hlab : labels ≠ []) (hc : c < numClasses) (hd : d < numClasses)
    (hcount : labels.count d ≤ labels.count c) :
    (Affection.getLabelWeights labels numClasses)[c]? =
      some ((labels.count c : ℚ) / (Affection.maxCount labels : ℚ)) ∧
    ((labels.count d : ℚ) / (Affection.maxCount labels : ℚ)) ≤
      ((labels.count c : ℚ) / (Affection.maxCount labels : ℚ)) := by
  constructor
  · simp [Affection.getLabelWeights, List.getElem?_map, List.getElem?_range, hc]
  · have hposq : (0 : ℚ) ≤ (Affection.maxCount labels : ℚ) := by positivity
    exact div_le_div_of_nonneg_right (by exact_mod_cast hcount) hposq

/-- C8 witness: the amended statement at the concrete counter `[0, 1, 1]` with
2 classes, comparing class 1 (common) against class 0 (rare). -/
theorem getLabelWeights_c8_witness :
    (Affection.getLabelWeights [0, 1, 1] 2)[1]? =
      some ((([0, 1, 1] : List ℕ).count 1 : ℚ) / (Affection.maxCount [0, 1, 1] : ℚ)) ∧
    ((([0, 1, 1] : List ℕ).count 0 : ℚ) / (Affection.maxCount [0, 1, 1] : ℚ)) ≤
      ((([0, 1, 1] : List ℕ).count 1 : ℚ) / (Affection.maxCount [0, 1, 1] : ℚ)) :=
  getLabelWeights_c8 [0, 1, 1] 2 1 0 (by decide) (by decide) (by decide) (by decide)

/-- C9: an idiom id present in the enlarged candidate sequence resolves to its
position in that sequence, and looking the sequence up at that index returns
the same id; an absent id resolves to the sentinel `-100`. -/
theorem resolveCandidateIdx_c9 (cands : List ℕ) (idiom : ℕ) :
    (idiom ∈ cands →
      Affection.resolveCandidateIdx cands idiom = (cands.indexOf idiom : ℤ) ∧
      cands[cands.indexOf idiom]? = some idiom) ∧
    (idiom ∉ cands → Affection.resolveCandidateIdx cands idiom = -100) := by
  constructor
  · intro hmem
    exact ⟨by simp [Affection.resolveCandidateIdx, hmem], List.getElem?_indexOf hmem⟩
  · intro hnot
    simp [Affection.resolveCandidateIdx, hnot]

/-- C9 witness: id 9 in the candidate sequence `[4, 9, 2]`. -/
theorem resolveCandidateIdx_c9_witness :
    Affection.resolveCandidateIdx [4, 9, 2] 9 = (([4, 9, 2] : List ℕ).indexOf 9 : ℤ) ∧
    ([4, 9, 2] : List ℕ)[([4, 9, 2] : List ℕ).indexOf 9]? = some 9 :=
  (resolveCandidateIdx_c9 [4, 9, 2] 9).1 (by decide)

/-- C3: for every batch of pooled blank vectors and every idiom-embedding table
restricted to the enlarged candidate set, `vocab` returns logits whose entry `k`
is the dot product of the blank vector with embedding row `E[k]`, and a
reconstructed state equal to the softmax-weighted sum of the embedding rows. -/
theorem vocab_c3 (Bn K H : ℕ) (expF : ℚ → ℚ) (E : Matrix (Fin K) (Fin H) ℚ)
    (blankStates : Matrix (Fin Bn) (Fin H) ℚ) (i : Fin Bn) (k : Fin K) (d : Fin H) :
    (Affection.vocab expF E blankStates).1 i k = ∑ j, blankStates i j * E k j ∧
    (Affection.vocab expF E blankStates).2 i d =
      ∑ n, Affection.softmaxRow expF ((Affection.vocab expF E blankStates).1 i) n *
        E n d := by
  constructor
  · simp [Affection.vocab, Affection.einsum_bd_nd_bn, Matrix.mul_apply,
      Matrix.transpose_apply]
  · simp [Affection.vocab, Affection.einsum_bn_nd_bd, Affection.softmaxRows,
      Matrix.mul_apply]

/-- C4: the span-pooled vector is an indexed gather along the sequence axis
followed by an elementwise maximum over the gathered positions: for every
hidden-state tensor, valid gather index, batch row `b` and hidden coordinate
`d`, `composed[b][d]` dominates every `h[b][g[b][j]][d]` and is attained by one
of them. -/
theorem maxPooling_c4 (N S H W : ℕ) (encodedContext : Fin N → Fin S → Fin H → ℚ)
    (gatherIdx : Fin N → Fin (W + 1) → Fin S) (b : Fin N) (d : Fin H) :
    (∀ j : Fin (W + 1),
      encodedContext b (gatherIdx b j) d ≤
        Affection.maxDim1 (Affection.idiomStatesOf encodedContext gatherIdx) b d) ∧
    (∃ j : Fin (W + 1),
      Affection.maxDim1 (Affection.idiomStatesOf encodedContext gatherIdx) b d =
        encodedContext b (gatherIdx b j) d) := by
  constructor
  · intro j
    exact Finset.le_sup'
      (fun j => Affection.idiomStatesOf encodedContext gatherIdx b j d)
      (Finset.mem_univ j)
  · obtain ⟨j, _, hj⟩ := Finset.exists_mem_eq_sup'
      (⟨(0 : Fin (W + 1)), Finset.mem_univ 0⟩ : (Finset.univ : Finset (Fin (W + 1))).Nonempty)
      (fun j => Affection.idiomStatesOf encodedContext gatherIdx b j d)
    exact ⟨j, hj⟩

/-- C1 (counterexample): with `L = 1`, `position = 0`, `max_txt_len = 2` the
window is `(st, ed) = (0, 0)`, so `position < ed` fails: the claimed bounds do
not hold for *every* `max_txt_len`. -/
theorem spanWindow_c1_counterexample :
    Affection.spanWindow 1 0 2 = (0, 0) ∧ ¬ ((0 : ℤ) < (Affection.spanWindow 1 0 2).2) := by
  decide

/-- C1 (amended): for every token-id sequence length `L`, mask position
`0 ≤ position < L`, and every `max_txt_len ≥ 4`, the window `(st, ed)` computed
by `spanWindow` satisfies `0 ≤ st ≤ position < ed ≤ L + 1` and
`ed - st ≤ max_txt_len - 2`. -/
theorem spanWindow_bounds (L position max_txt_len : ℕ)
    (hpos : position < L) (hmax : 4 ≤ max_txt_len) :
    0 ≤ (Affection.spanWindow L position max_txt_len).1 ∧
    (Affection.spanWindow L position max_txt_len).1 ≤ (position : ℤ) ∧
    (position : ℤ) < (Affection.spanWindow L position max_txt_len).2 ∧
    (Affection.spanWindow L position max_txt_len).2 ≤ (L : ℤ) + 1 ∧
    (Affection.spanWindow L position max_txt_len).2 -
      (Affection.spanWindow L position max_txt_len).1 ≤ (max_txt_len : ℤ) - 2 := by
  simp only [Affection.spanWindow]
  split
  · refine ⟨by positivity, ?_, ?_, ?_, ?_⟩ <;> · simp only; omega
  · split
    · refine ⟨?_, ?_, ?_, ?_, ?_⟩ <;> · simp only; omega
    · refine ⟨?_, ?_, ?_, ?_, ?_⟩ <;> · simp only; omega

/-- C1 witness: the amended bound applied at Scenario A of the spec
(`L = 10`, `position = 2`, `max_txt_len = 8`). -/
theorem spanWindow_bounds_witness :
    0 ≤ (Affection.spanWindow 10 2 8).1 ∧
    (Affection.spanWindow 10 2 8).1 ≤ (2 : ℤ) ∧
    (2 : ℤ) < (Affection.spanWindow 10 2 8).2 ∧
    (Affection.spanWindow 10 2 8).2 ≤ (10 : ℤ) + 1 ∧
    (Affection.spanWindow 10 2 8).2 - (Affection.spanWindow 10 2 8).1 ≤ (8 : ℤ) - 2 :=
  spanWindow_bounds 10 2 8 (by decide) (by decide)
